import Mathlib

/-!
# RevCPU: the clock-driven multi-core scheduling loop

A shallow embedding of `src/RevCPU.cc` / `src/RevCPU.h`: the constructor, `setup`, `init`,
the two message handlers and `clockTick` of the SST component `RevCPU`.

Conventions of the embedding.

* Pointers are `Option`s of handles, `none` being the null pointer.
* A member call through a null pointer and `output.fatal` (which ends the process) are the
  two ways an operation can abort; fallible operations return `Except Abort _`.
* Every call into a collaborator (the SST core, `RevProc`, the two network interfaces) is
  recorded as a `Call`, oldest first, so that "which calls were made, in which order" can be
  stated.  `output.verbose` diagnostics are not recorded.
* `RevProc::ClockTick` is not part of the embedded files.  It is a parameter
  `ClockTick : ω → RevProc → Nat → Bool × ω` acting on a world `ω` that holds everything the
  cores can touch (their own state and the shared memory), so theorems quantified over
  `ClockTick` and the initial world hold for every deterministic behaviour of the cores.
* `numCores` and the loop counters are `unsigned` in the source; `Procs.size()` equals
  `numCores` after construction, so the counters never wrap and the loops are folds over
  `List.range`.
* `new` does not return null, so the branches `if( !Opts )`, `if( !Mem )` and
  `if( !Loader )` of the constructor are never taken and have no counterpart here.
* `Enabled` is a raw array of `numCores` entries; it is a list here, read with
  `List.getD _ _ false`.  The theorems about `clockTick` assume `RevCPU.WellFormed`, under
  which every read and write of the loops is inside the array.
* Deleting an event releases the message only; it does not touch the cores, so the message
  handlers do not take or return the world.
-/

namespace SST

/-! ## Data model -/

/-- Handle of a `RevProc` object; `id` is the core index it was constructed with. -/
structure RevProc where
  id : Nat
deriving DecidableEq

/-- Handle of the object behind a `nicAPI *`. -/
structure nicAPI where
  handle : Nat
deriving DecidableEq

/-- Handle of the object behind a `panNicAPI *`. -/
structure panNicAPI where
  handle : Nat
deriving DecidableEq

/-- An `SST::Event` handed to a message handler; the payload is opaque and may be empty. -/
structure Event where
  payload : List Nat
deriving DecidableEq

/-- Calls made by `RevCPU` into its collaborators. -/
inductive Call where
  | registerClock
  | registerAsPrimaryComponent
  | primaryComponentDoNotEndSim
  | primaryComponentOKToEndSim
  | newRevOpts (numCores : Nat)
  | loadUserSubComponent (slot : String)
  | NicSetMsgHandler
  | PNicSetMsgHandler
  | newRevMem
  | newRevLoader
  | newRevProc (i : Nat)
  | fatal (msg : String)
  | NicSetup
  | NicInit (phase : Nat)
  | PNicSetup
  | PNicInit (phase : Nat)
  | deleteNicEvent (ev : Event)
  | deletePanNicEvent (ev : Event)
  | ClockTick (i : Nat) (currentCycle : Nat) (rtn : Bool)
deriving DecidableEq

/-- The two ways an operation ends without returning. -/
inductive Abort where
  | fatal (msg : String)
  | nullDereference
deriving DecidableEq

/-- The private members of `class RevCPU` that the embedded operations read or write
(`Exe`, `Args`, `Opts`, `Mem`, `Loader`, `timeConverter` and `output` are only handed on to
collaborators). -/
structure RevCPU where
  numCores : Nat
  Procs : List RevProc
  Enabled : List Bool
  EnableNIC : Bool
  EnablePAN : Bool
  Nic : Option nicAPI
  PNic : Option panNicAPI
deriving DecidableEq

/-- The values the constructor reads from `SST::Params`. -/
structure Params where
  numCores : Nat
  enable_nic : Bool
  enable_pan : Bool
deriving DecidableEq

/-- What the collaborators answer during construction, and the indeterminate contents of
storage the constructor reads or allocates without initialising it: the members `Nic` and
`PNic` (only `EnableNIC` has a member initialiser) and the fresh `new bool [numCores]`. -/
structure Collaborators where
  InitStartAddrs : Bool
  InitMachineModels : Bool
  InitInstTables : Bool
  InitMemCosts : Bool
  nic : Option nicAPI
  pan_nic : Option panNicAPI
  NicIndeterminate : Option nicAPI
  PNicIndeterminate : Option panNicAPI
  EnabledIndeterminate : Nat → Bool

/-- Result of running the constructor: the calls it made and either the object or the abort. -/
structure Construction where
  calls : List Call
  outcome : Except Abort RevCPU

/-! ## Construction -/

/-- The effect of `output.fatal(CALL_INFO, -1, msg)` after the calls `t`. -/
def Construction.fatal (t : List Call) (msg : String) : Construction :=
  { calls := t ++ [Call.fatal msg], outcome := Except.error (Abort.fatal msg) }

/-- Body of `for( unsigned i=0; i<numCores; i++ ){ Procs.push_back( new RevProc( i, ... ) ); }`
on the pair (Procs, calls made). -/
def RevCPU.pushProc (st : List RevProc × List Call) (i : Nat) : List RevProc × List Call :=
  (st.1 ++ [RevProc.mk i], st.2 ++ [Call.newRevProc i])

/-- Constructor `RevCPU::RevCPU`. -/
def RevCPU.new (params : Params) (ext : Collaborators) : Construction :=
  let numCores := params.numCores
  let t1 := [Call.registerClock, Call.registerAsPrimaryComponent,
    Call.primaryComponentDoNotEndSim, Call.newRevOpts numCores]
  if !ext.InitStartAddrs then
    Construction.fatal t1 "Error: failed to initialize the starting addresses\n"
  else if !ext.InitMachineModels then
    Construction.fatal t1 "Error: failed to initialize the machine models\n"
  else if !ext.InitInstTables then
    Construction.fatal t1 "Error: failed to initialize the instruction tables\n"
  else if !ext.InitMemCosts then
    Construction.fatal t1 "Error: failed to initialize the memory latency range\n"
  else
  let EnableNIC := params.enable_nic
  let Nic := if EnableNIC then ext.nic else ext.NicIndeterminate
  let t2 := if EnableNIC then t1 ++ [Call.loadUserSubComponent "nic"] else t1
  if EnableNIC && Nic.isNone then
    Construction.fatal t2 "Error: no NIC object loaded into RevCPU\n"
  else
  let t3 := if EnableNIC then t2 ++ [Call.NicSetMsgHandler] else t2
  let EnablePAN := params.enable_pan
  let PNic := if EnablePAN then ext.pan_nic else ext.PNicIndeterminate
  let t4 := if EnablePAN then t3 ++ [Call.loadUserSubComponent "pan_nic"] else t3
  if EnablePAN && Nic.isNone then
    Construction.fatal t4 "Error: no PAN NIC object loaded into RevCPU\n"
  else if EnablePAN && PNic.isNone then
    { calls := t4, outcome := Except.error Abort.nullDereference }
  else
  let t5 := if EnablePAN then t4 ++ [Call.PNicSetMsgHandler] else t4
  let t6 := t5 ++ [Call.newRevMem, Call.newRevLoader]
  let built := (List.range numCores).foldl RevCPU.pushProc ([], t6)
  let Enabled := (List.range numCores).foldl (fun E i => E.set i true)
    ((List.range numCores).map ext.EnabledIndeterminate)
  { calls := built.2,
    outcome := Except.ok
      { numCores := numCores, Procs := built.1, Enabled := Enabled,
        EnableNIC := EnableNIC, EnablePAN := EnablePAN, Nic := Nic, PNic := PNic } }

/-! ## Lifecycle forwarding -/

/-- Method `RevCPU::setup`: the calls made, or the abort. -/
def RevCPU.setup (c : RevCPU) : Except Abort (List Call) :=
  if c.EnableNIC then
    match c.Nic with
    | some _ => Except.ok [Call.NicSetup]
    | none => Except.error Abort.nullDereference
  else Except.ok []

/-- Method `RevCPU::init`: the calls made, or the abort. -/
def RevCPU.init (c : RevCPU) (phase : Nat) : Except Abort (List Call) :=
  if c.EnableNIC then
    match c.Nic with
    | some _ => Except.ok [Call.NicInit phase]
    | none => Except.error Abort.nullDereference
  else Except.ok []

/-! ## Message handlers -/

/-- Method `RevCPU::handleMessage`: the event is cast and deleted; no member is written. -/
def RevCPU.handleMessage (c : RevCPU) (ev : Event) : RevCPU × List Call :=
  (c, [Call.deleteNicEvent ev])

/-- Method `RevCPU::handlePANMessage`: the event is cast and deleted; no member is written. -/
def RevCPU.handlePANMessage (c : RevCPU) (ev : Event) : RevCPU × List Call :=
  (c, [Call.deletePanNicEvent ev])

/-! ## The clock handler -/

/-- What a `clockTick` call mutates while it runs: the completion array, the world of the
cores, and the calls made so far in this call. -/
structure TickState (ω : Type) where
  Enabled : List Bool
  world : ω
  calls : List Call

/-- What a `clockTick` call leaves behind. -/
structure TickResult (ω : Type) where
  rtn : Bool
  cpu : RevCPU
  world : ω
  calls : List Call

/-- Body of the first loop of `clockTick` at index `i`:
`if( Enabled[i] ){ if( !Procs[i]->ClockTick(currentCycle) ) Enabled[i] = false; }`.
The loop only reaches `i < Procs.size()`, so `Procs[i]` exists. -/
def RevCPU.execCore {ω : Type} (ClockTick : ω → RevProc → Nat → Bool × ω) (c : RevCPU)
    (currentCycle : Nat) (st : TickState ω) (i : Nat) : TickState ω :=
  if st.Enabled.getD i false then
    match c.Procs[i]? with
    | some p =>
      let r := ClockTick st.world p currentCycle
      { Enabled := if !r.1 then st.Enabled.set i false else st.Enabled,
        world := r.2,
        calls := st.calls ++ [Call.ClockTick i currentCycle r.1] }
    | none => st
  else st

/-- Body of the second loop of `clockTick` at index `i`: `if( Enabled[i] ) rtn = false;`. -/
def RevCPU.checkCore (Enabled : List Bool) (rtn : Bool) (i : Nat) : Bool :=
  if Enabled.getD i false then false else rtn

/-- Method `RevCPU::clockTick`. -/
def RevCPU.clockTick {ω : Type} (ClockTick : ω → RevProc → Nat → Bool × ω) (c : RevCPU)
    (w : ω) (currentCycle : Nat) : TickResult ω :=
  let st := (List.range c.Procs.length).foldl (c.execCore ClockTick currentCycle)
    { Enabled := c.Enabled, world := w, calls := [] }
  let rtn := (List.range c.Procs.length).foldl (RevCPU.checkCore st.Enabled) true
  { rtn := rtn,
    cpu := { c with Enabled := st.Enabled },
    world := st.world,
    calls := if rtn then st.calls ++ [Call.primaryComponentOKToEndSim] else st.calls }

/-! ## Observations on the recorded calls -/

/-- The core index of a `Procs[i]->ClockTick(...)` call. -/
def Call.tickIndex : Call → Option Nat
  | Call.ClockTick i _ _ => some i
  | _ => none

/-- Whether a call is an invocation of `ClockTick` on core `i`. -/
def Call.isTickOf (i : Nat) : Call → Bool
  | Call.ClockTick j _ _ => j == i
  | _ => false

/-- Whether a call is an invocation of `ClockTick` on core `i` that returned `false`
(the core reported that it has finished). -/
def Call.isFinishOf (i : Nat) : Call → Bool
  | Call.ClockTick j _ r => j == i && !r
  | _ => false

/-- The core indices of the `ClockTick` invocations among `calls`, in call order. -/
def tickedCores (calls : List Call) : List Nat := calls.filterMap Call.tickIndex

/-- How many times `ClockTick` was invoked on core `i` among `calls`. -/
def timesTicked (calls : List Call) (i : Nat) : Nat := calls.countP (Call.isTickOf i)

/-- Whether core `i` returned `false` from a `ClockTick` invocation among `calls`. -/
def finishedIn (calls : List Call) (i : Nat) : Bool := calls.any (Call.isFinishOf i)

/-- The core index of a `new RevProc( i, ... )` call. -/
def Call.newProcIndex : Call → Option Nat
  | Call.newRevProc i => some i
  | _ => none

/-- The core indices of the `RevProc` constructions among `calls`, in call order. -/
def createdCores (calls : List Call) : List Nat := calls.filterMap Call.newProcIndex

/-- Whether `output.fatal` was called among `calls`. -/
def calledFatal (calls : List Call) : Bool :=
  calls.any (fun e => match e with
    | Call.fatal _ => true
    | _ => false)

/-! ## The host: sequences of calls -/

/-- Class invariant of the completion array: `Procs` holds `numCores` units and `Enabled`
is the `new bool [numCores]` array. -/
def RevCPU.WellFormed (c : RevCPU) : Prop :=
  c.Procs.length = c.numCores ∧ c.Enabled.length = c.numCores

instance (c : RevCPU) : Decidable c.WellFormed :=
  inferInstanceAs (Decidable (_ ∧ _))

/-- The host calling `clockTick` again and again, the call number `k` (from 0) with cycle
number `cyc k`: the object and the world in which call `k` starts. -/
def RevCPU.stateBefore {ω : Type} (ClockTick : ω → RevProc → Nat → Bool × ω) (cyc : Nat → Nat)
    (c : RevCPU) (w : ω) : Nat → RevCPU × ω
  | 0 => (c, w)
  | k + 1 =>
    let s := RevCPU.stateBefore ClockTick cyc c w k
    let o := RevCPU.clockTick ClockTick s.1 s.2 (cyc k)
    (o.cpu, o.world)

/-- Call number `k` (from 0) of the host's sequence of `clockTick` calls. -/
def RevCPU.call {ω : Type} (ClockTick : ω → RevProc → Nat → Bool × ω) (cyc : Nat → Nat)
    (c : RevCPU) (w : ω) (k : Nat) : TickResult ω :=
  let s := RevCPU.stateBefore ClockTick cyc c w k
  RevCPU.clockTick ClockTick s.1 s.2 (cyc k)

/-- The two transports: `Nic` delivers to `handleMessage`, `PNic` to `handlePANMessage`
(the handlers the constructor registers with `setMsgHandler`). -/
inductive Endpoint where
  | Nic
  | PNic
deriving DecidableEq

/-- Delivery of one message by an endpoint to the handler registered for it. -/
def RevCPU.deliver (c : RevCPU) (m : Endpoint × Event) : RevCPU × List Call :=
  match m.1 with
  | Endpoint.Nic => c.handleMessage m.2
  | Endpoint.PNic => c.handlePANMessage m.2

/-- Delivery of several messages one after the other. -/
def RevCPU.deliverAll (c : RevCPU) (msgs : List (Endpoint × Event)) : RevCPU :=
  msgs.foldl (fun c m => (c.deliver m).1) c

/-- The host's sequence of `clockTick` calls with message deliveries in between: `msgs 0` is
delivered before the first call and `msgs (k + 1)` after call `k`. -/
def RevCPU.stateBeforeWith {ω : Type} (ClockTick : ω → RevProc → Nat → Bool × ω)
    (cyc : Nat → Nat) (msgs : Nat → List (Endpoint × Event)) (c : RevCPU) (w : ω) :
    Nat → RevCPU × ω
  | 0 => (c.deliverAll (msgs 0), w)
  | k + 1 =>
    let s := RevCPU.stateBeforeWith ClockTick cyc msgs c w k
    let o := RevCPU.clockTick ClockTick s.1 s.2 (cyc k)
    (o.cpu.deliverAll (msgs (k + 1)), o.world)

/-- Call number `k` (from 0) of the sequence with message deliveries. -/
def RevCPU.callWith {ω : Type} (ClockTick : ω → RevProc → Nat → Bool × ω) (cyc : Nat → Nat)
    (msgs : Nat → List (Endpoint × Event)) (c : RevCPU) (w : ω) (k : Nat) : TickResult ω :=
  let s := RevCPU.stateBeforeWith ClockTick cyc msgs c w k
  RevCPU.clockTick ClockTick s.1 s.2 (cyc k)

/-! ### Concrete inputs -/

/-- Collaborators that all succeed, with no network interface in either slot. -/
def plainCollaborators : Collaborators :=
  { InitStartAddrs := true, InitMachineModels := true, InitInstTables := true,
    InitMemCosts := true, nic := none, pan_nic := none, NicIndeterminate := none,
    PNicIndeterminate := none, EnabledIndeterminate := fun _ => false }

/-- Collaborators that all succeed, with both the `nic` and the `pan_nic` slot filled. -/
def bothCollaborators : Collaborators :=
  { plainCollaborators with nic := some (nicAPI.mk 0), pan_nic := some (panNicAPI.mk 0) }

/-- The cycle in which each of the three cores of the scenario returns `false`. -/
def scenarioFinish : List Nat := [2, 5, 5]

/-- Cores without state: core `id` returns `true` before its finishing cycle. -/
def scenarioClockTick (w : Unit) (p : RevProc) (currentCycle : Nat) : Bool × Unit :=
  (decide (currentCycle < scenarioFinish.getD p.id 0), w)

/-- Call `k` (from 0) gets cycle number `k + 1`. -/
def scenarioCycle (k : Nat) : Nat := k + 1

/-- The object the constructor builds for three cores and no network interface. -/
def scenarioCPU : RevCPU :=
  { numCores := 3, Procs := [RevProc.mk 0, RevProc.mk 1, RevProc.mk 2],
    Enabled := [true, true, true], EnableNIC := false, EnablePAN := false,
    Nic := none, PNic := none }

/-- The object the constructor builds for no core and no network interface. -/
def emptyCPU : RevCPU :=
  { numCores := 0, Procs := [], Enabled := [], EnableNIC := false, EnablePAN := false,
    Nic := none, PNic := none }

/-- The object the constructor builds for one core with both network interfaces enabled
and resolved. -/
def bothCPU : RevCPU :=
  { numCores := 1, Procs := [RevProc.mk 0], Enabled := [true], EnableNIC := true,
    EnablePAN := true, Nic := some (nicAPI.mk 0), PNic := some (panNicAPI.mk 0) }

/-! ## Loop invariant of `clockTick` -/

/-- Loop invariant of the first loop of `clockTick` after the indices below `k`. -/
structure ExecInv {ω : Type} (c : RevCPU) (cycle : Nat) (k : Nat) (st : TickState ω) : Prop where
  length : st.Enabled.length = c.Enabled.length
  later : ∀ j, k ≤ j → st.Enabled.getD j false = c.Enabled.getD j false
  earlier : ∀ j, j < k →
    st.Enabled.getD j false = (c.Enabled.getD j false && !finishedIn st.calls j)
  ticked : tickedCores st.calls = (List.range k).filter (fun i => c.Enabled.getD i false)
  shape : ∀ e ∈ st.calls, ∃ i r, e = Call.ClockTick i cycle r

/-! ## Lemmas -/

theorem getD_false_lt {l : List Bool} {k : Nat} (h : l.getD k false = true) : k < l.length := by
  by_contra hlt
  rw [List.getD_eq_default _ _ (by omega)] at h
  exact Bool.false_ne_true h

theorem getD_set_ne (l : List Bool) {i j : Nat} (a d : Bool) (h : i ≠ j) :
    (l.set i a).getD j d = l.getD j d := by
  simp [List.getD_eq_getElem?_getD, List.getElem?_set, h]

theorem getD_set_self (l : List Bool) {i : Nat} (a d : Bool) (h : i < l.length) :
    (l.set i a).getD i d = a := by
  simp [List.getD_eq_getElem?_getD, List.getElem?_set, h]

theorem finishedIn_append (xs ys : List Call) (i : Nat) :
    finishedIn (xs ++ ys) i = (finishedIn xs i || finishedIn ys i) := by
  simp [finishedIn]

theorem tickedCores_append (xs ys : List Call) :
    tickedCores (xs ++ ys) = tickedCores xs ++ tickedCores ys := by
  simp [tickedCores]

theorem mem_tickedCores_of_finishedIn {calls : List Call} {i : Nat}
    (h : finishedIn calls i = true) : i ∈ tickedCores calls := by
  simp only [finishedIn, List.any_eq_true] at h
  obtain ⟨e, he, hf⟩ := h
  cases e <;> simp [Call.isFinishOf] at hf
  simp only [tickedCores, List.mem_filterMap]
  exact ⟨_, he, by simp [Call.tickIndex, hf.1]⟩

theorem ExecInv.start {ω : Type} (c : RevCPU) (cycle : Nat) (w : ω) :
    ExecInv c cycle 0 { Enabled := c.Enabled, world := w, calls := [] } where
  length := rfl
  later := fun _ _ => rfl
  earlier := fun j hj => absurd hj (Nat.not_lt_zero j)
  ticked := by simp [tickedCores]
  shape := by simp

theorem ExecInv.not_finished {ω : Type} {c : RevCPU} {cycle k : Nat} {st : TickState ω}
    (h : ExecInv c cycle k st) {j : Nat} (hj : k ≤ j) : finishedIn st.calls j = false := by
  by_contra hf
  have hm := mem_tickedCores_of_finishedIn (Bool.eq_true_of_not_eq_false hf)
  rw [h.ticked, List.mem_filter, List.mem_range] at hm
  omega

theorem ExecInv.step {ω : Type} (ClockTick : ω → RevProc → Nat → Bool × ω) {c : RevCPU}
    {cycle k : Nat} {st : TickState ω} (h : ExecInv c cycle k st) (hk : k < c.Procs.length) :
    ExecInv c cycle (k + 1) (c.execCore ClockTick cycle st k) := by
  have hck : st.Enabled.getD k false = c.Enabled.getD k false := h.later k (Nat.le_refl k)
  unfold RevCPU.execCore
  by_cases hE : st.Enabled.getD k false = true
  · have hlt : k < st.Enabled.length := getD_false_lt hE
    rw [if_pos hE, List.getElem?_eq_getElem hk]
    simp only
    generalize ClockTick st.world c.Procs[k] cycle = r
    have hnf := h.not_finished (Nat.le_refl k)
    refine ⟨?_, ?_, ?_, ?_, ?_⟩
    · show (if (!r.1) = true then st.Enabled.set k false else st.Enabled).length = _
      split <;> simp [h.length]
    · intro j hj
      show (if (!r.1) = true then st.Enabled.set k false else st.Enabled).getD j false = _
      have hne : k ≠ j := by omega
      split
      · rw [getD_set_ne _ _ _ hne]; exact h.later j (by omega)
      · exact h.later j (by omega)
    · intro j hj
      show (if (!r.1) = true then st.Enabled.set k false else st.Enabled).getD j false = _
      rw [finishedIn_append]
      by_cases hjk : j = k
      · subst hjk
        rw [hnf, ← hck, hE]
        cases hr : r.1
        · rw [if_pos (by simp), getD_set_self _ _ _ hlt]
          simp [finishedIn, Call.isFinishOf]
        · rw [if_neg (by simp), hE]
          simp [finishedIn, Call.isFinishOf]
      · have hne : k ≠ j := fun e => hjk e.symm
        have hold := h.earlier j (by omega)
        have hlast : finishedIn [Call.ClockTick k cycle r.1] j = false := by
          simp [finishedIn, Call.isFinishOf, hne]
        rw [hlast, Bool.or_false, ← hold]
        split
        · exact getD_set_ne _ _ _ hne
        · rfl
    · show tickedCores (st.calls ++ [Call.ClockTick k cycle r.1]) = _
      have hc : c.Enabled.getD k false = true := hck ▸ hE
      rw [tickedCores_append, h.ticked, List.range_succ, List.filter_append]
      simp only [List.filter_cons, List.filter_nil, hc, if_true]
      rfl
    · intro e he
      rcases List.mem_append.1 he with he | he
      · exact h.shape e he
      · exact ⟨k, r.1, by simpa using he⟩
  · rw [if_neg hE]
    have hEf : st.Enabled.getD k false = false := Bool.eq_false_of_not_eq_true hE
    refine ⟨h.length, fun j hj => h.later j (by omega), ?_, ?_, h.shape⟩
    · intro j hj
      by_cases hjk : j = k
      · subst hjk
        rw [hEf, ← hck, hEf]; rfl
      · exact h.earlier j (by omega)
    · have hc : c.Enabled.getD k false = false := hck ▸ hEf
      rw [h.ticked, List.range_succ, List.filter_append]
      simp only [List.filter_cons, List.filter_nil, hc, Bool.false_eq_true, if_false,
        List.append_nil]

theorem ExecInv.loop {ω : Type} (ClockTick : ω → RevProc → Nat → Bool × ω) (c : RevCPU)
    (cycle : Nat) (w : ω) (k : Nat) (hk : k ≤ c.Procs.length) :
    ExecInv c cycle k ((List.range k).foldl (c.execCore ClockTick cycle)
      { Enabled := c.Enabled, world := w, calls := [] }) := by
  induction k with
  | zero => exact ExecInv.start c cycle w
  | succ k ih =>
    rw [List.range_succ, List.foldl_append]
    exact (ih (by omega)).step ClockTick (by omega)

theorem checkLoop_eq_true (E : List Bool) (k : Nat) :
    (List.range k).foldl (RevCPU.checkCore E) true = true ↔
      ∀ j, j < k → E.getD j false = false := by
  induction k with
  | zero => simp
  | succ k ih =>
    rw [List.range_succ, List.foldl_append]
    simp only [List.foldl_cons, List.foldl_nil, RevCPU.checkCore]
    by_cases hE : E.getD k false = true
    · rw [if_pos hE]
      constructor
      · intro hf; exact absurd hf Bool.false_ne_true
      · intro hall; rw [hall k (Nat.lt_succ_self k)] at hE; exact absurd hE Bool.false_ne_true
    · rw [if_neg hE, ih]
      constructor
      · intro hall j hj
        by_cases hjk : j = k
        · subst hjk; exact Bool.eq_false_of_not_eq_true hE
        · exact hall j (by omega)
      · intro hall j hj; exact hall j (by omega)

/-! ### One `clockTick` call -/

section OneCall

variable {ω : Type} (ClockTick : ω → RevProc → Nat → Bool × ω) (c : RevCPU) (w : ω)
  (cycle : Nat)

theorem clockTick_inv :
    ExecInv c cycle c.Procs.length
      { Enabled := (c.clockTick ClockTick w cycle).cpu.Enabled,
        world := (c.clockTick ClockTick w cycle).world,
        calls := (List.range c.Procs.length).foldl (c.execCore ClockTick cycle)
          { Enabled := c.Enabled, world := w, calls := [] } |>.calls } :=
  ExecInv.loop ClockTick c cycle w c.Procs.length (Nat.le_refl _)

theorem clockTick_calls_cases :
    (c.clockTick ClockTick w cycle).calls =
        ((List.range c.Procs.length).foldl (c.execCore ClockTick cycle)
          { Enabled := c.Enabled, world := w, calls := [] }).calls ∨
      (c.clockTick ClockTick w cycle).calls =
        ((List.range c.Procs.length).foldl (c.execCore ClockTick cycle)
          { Enabled := c.Enabled, world := w, calls := [] }).calls ++
          [Call.primaryComponentOKToEndSim] := by
  unfold RevCPU.clockTick
  simp only
  split
  · exact Or.inr rfl
  · exact Or.inl rfl

theorem clockTick_tickedCores :
    tickedCores (c.clockTick ClockTick w cycle).calls =
      (List.range c.Procs.length).filter (fun i => c.Enabled.getD i false) := by
  have h := (clockTick_inv ClockTick c w cycle).ticked
  rcases clockTick_calls_cases ClockTick c w cycle with e | e
  · rw [e]; exact h
  · rw [e, tickedCores_append]
    simpa [tickedCores, Call.tickIndex] using h

theorem clockTick_finishedIn (i : Nat) :
    finishedIn (c.clockTick ClockTick w cycle).calls i =
      finishedIn ((List.range c.Procs.length).foldl (c.execCore ClockTick cycle)
          { Enabled := c.Enabled, world := w, calls := [] }).calls i := by
  rcases clockTick_calls_cases ClockTick c w cycle with e | e
  · rw [e]
  · rw [e, finishedIn_append]
    simp [finishedIn, Call.isFinishOf]

theorem clockTick_length :
    (c.clockTick ClockTick w cycle).cpu.Enabled.length = c.Enabled.length :=
  (clockTick_inv ClockTick c w cycle).length

theorem clockTick_getD {i : Nat} (hi : i < c.Procs.length) :
    (c.clockTick ClockTick w cycle).cpu.Enabled.getD i false =
      (c.Enabled.getD i false && !finishedIn (c.clockTick ClockTick w cycle).calls i) := by
  rw [clockTick_finishedIn]
  exact (clockTick_inv ClockTick c w cycle).earlier i hi

theorem clockTick_shape (e : Call) (he : e ∈ (c.clockTick ClockTick w cycle).calls) :
    (∃ i r, e = Call.ClockTick i cycle r) ∨ e = Call.primaryComponentOKToEndSim := by
  have h := (clockTick_inv ClockTick c w cycle).shape
  rcases clockTick_calls_cases ClockTick c w cycle with e' | e'
  · rw [e'] at he; exact Or.inl (h e he)
  · rw [e'] at he
    rcases List.mem_append.1 he with he | he
    · exact Or.inl (h e he)
    · exact Or.inr (by simpa using he)

theorem clockTick_rtn :
    (c.clockTick ClockTick w cycle).rtn = true ↔
      ∀ j, j < c.Procs.length →
        (c.clockTick ClockTick w cycle).cpu.Enabled.getD j false = false :=
  checkLoop_eq_true _ _

theorem clockTick_okToEnd :
    Call.primaryComponentOKToEndSim ∈ (c.clockTick ClockTick w cycle).calls ↔
      (c.clockTick ClockTick w cycle).rtn = true := by
  have h := (clockTick_inv ClockTick c w cycle).shape
  unfold RevCPU.clockTick
  simp only
  split
  · rename_i hr
    simp [hr]
  · rename_i hr
    constructor
    · intro hm
      obtain ⟨i, r, hir⟩ := h _ hm
      cases hir
    · intro hr'
      exact absurd hr' hr

end OneCall

theorem all_false_iff_getD (E : List Bool) :
    (∀ b ∈ E, b = false) ↔ ∀ j, j < E.length → E.getD j false = false := by
  constructor
  · intro h j hj
    rw [List.getD_eq_getElem _ _ hj]
    exact h _ (List.getElem_mem hj)
  · intro h b hb
    obtain ⟨j, hj, rfl⟩ := List.getElem_of_mem hb
    rw [← List.getD_eq_getElem _ false hj]
    exact h j hj

theorem getElem?_eq_some_iff_getD (E : List Bool) {i : Nat} (hi : i < E.length) (b : Bool) :
    E[i]? = some b ↔ E.getD i false = b := by
  rw [List.getD_eq_getElem _ _ hi, List.getElem?_eq_getElem hi]
  simp

section Calls

variable {ω : Type} (ClockTick : ω → RevProc → Nat → Bool × ω) (cyc : Nat → Nat) (c : RevCPU)
  (w : ω)

theorem stateBefore_succ (k : Nat) :
    (RevCPU.stateBefore ClockTick cyc c w (k + 1)).1 = (RevCPU.call ClockTick cyc c w k).cpu :=
  rfl

theorem stateBefore_Procs (k : Nat) :
    (RevCPU.stateBefore ClockTick cyc c w k).1.Procs = c.Procs := by
  induction k with
  | zero => rfl
  | succ k ih => exact ih

theorem stateBefore_numCores (k : Nat) :
    (RevCPU.stateBefore ClockTick cyc c w k).1.numCores = c.numCores := by
  induction k with
  | zero => rfl
  | succ k ih => exact ih

theorem stateBefore_length (k : Nat) :
    (RevCPU.stateBefore ClockTick cyc c w k).1.Enabled.length = c.Enabled.length := by
  induction k with
  | zero => rfl
  | succ k ih =>
    rw [← ih]
    exact clockTick_length ClockTick _ _ _

theorem stateBefore_wellFormed (hwf : c.WellFormed) (k : Nat) :
    (RevCPU.stateBefore ClockTick cyc c w k).1.WellFormed := by
  unfold RevCPU.WellFormed
  rw [stateBefore_Procs, stateBefore_numCores, stateBefore_length]
  exact hwf

/-- Entry `i` of the completion array before call `k` is set iff it was set at the start and
core `i` has not returned `false` in any of the calls `0 .. k-1`. -/
theorem stateBefore_getD {i : Nat} (hi : i < c.Procs.length) (k : Nat) :
    (RevCPU.stateBefore ClockTick cyc c w k).1.Enabled.getD i false = true ↔
      c.Enabled.getD i false = true ∧
        ∀ m, m < k → finishedIn (RevCPU.call ClockTick cyc c w m).calls i = false := by
  induction k with
  | zero => simp [RevCPU.stateBefore]
  | succ k ih =>
    have hi' : i < (RevCPU.stateBefore ClockTick cyc c w k).1.Procs.length := by
      rw [stateBefore_Procs]; exact hi
    have hstep := clockTick_getD ClockTick (RevCPU.stateBefore ClockTick cyc c w k).1
      (RevCPU.stateBefore ClockTick cyc c w k).2 (cyc k) hi'
    show (RevCPU.clockTick ClockTick (RevCPU.stateBefore ClockTick cyc c w k).1
      (RevCPU.stateBefore ClockTick cyc c w k).2 (cyc k)).cpu.Enabled.getD i false = true ↔ _
    rw [hstep, Bool.and_eq_true, ih, Bool.not_eq_true']
    constructor
    · rintro ⟨⟨h0, hall⟩, hk⟩
      refine ⟨h0, fun m hm => ?_⟩
      by_cases hmk : m = k
      · subst hmk; exact hk
      · exact hall m (by omega)
    · rintro ⟨h0, hall⟩
      exact ⟨⟨h0, fun m hm => hall m (by omega)⟩, hall k (Nat.lt_succ_self k)⟩

/-- A core is advanced in call `k` only if its entry is set when the call starts. -/
theorem call_ticked_enabled {i : Nat} {k : Nat}
    (h : i ∈ tickedCores (RevCPU.call ClockTick cyc c w k).calls) :
    (RevCPU.stateBefore ClockTick cyc c w k).1.Enabled.getD i false = true := by
  have := clockTick_tickedCores ClockTick (RevCPU.stateBefore ClockTick cyc c w k).1
      (RevCPU.stateBefore ClockTick cyc c w k).2 (cyc k)
  unfold RevCPU.call at h
  simp only at h
  rw [this, List.mem_filter] at h
  exact h.2

theorem call_ticked_lt {i : Nat} {k : Nat}
    (h : i ∈ tickedCores (RevCPU.call ClockTick cyc c w k).calls) : i < c.Procs.length := by
  have := clockTick_tickedCores ClockTick (RevCPU.stateBefore ClockTick cyc c w k).1
      (RevCPU.stateBefore ClockTick cyc c w k).2 (cyc k)
  unfold RevCPU.call at h
  simp only at h
  rw [this, List.mem_filter, List.mem_range, stateBefore_Procs] at h
  exact h.1

/-- The return value of call `k`: every core, whose entry was set at the start, has returned
`false` in one of the calls `0 .. k`. -/
theorem call_rtn (k : Nat) :
    (RevCPU.call ClockTick cyc c w k).rtn = true ↔
      ∀ i, i < c.Procs.length → c.Enabled.getD i false = true →
        ∃ m, m ≤ k ∧ finishedIn (RevCPU.call ClockTick cyc c w m).calls i = true := by
  have h := clockTick_rtn ClockTick (RevCPU.stateBefore ClockTick cyc c w k).1
      (RevCPU.stateBefore ClockTick cyc c w k).2 (cyc k)
  rw [stateBefore_Procs] at h
  show (RevCPU.clockTick ClockTick (RevCPU.stateBefore ClockTick cyc c w k).1
      (RevCPU.stateBefore ClockTick cyc c w k).2 (cyc k)).rtn = true ↔ _
  rw [h]
  constructor
  · intro hall i hi h0
    by_contra hne
    have hset := (stateBefore_getD ClockTick cyc c w hi (k + 1)).2
      ⟨h0, fun m hm => by
        by_contra hf
        exact hne ⟨m, by omega, Bool.eq_true_of_not_eq_false hf⟩⟩
    have := hall i hi
    rw [stateBefore_succ] at hset
    unfold RevCPU.call at hset
    simp only at hset
    rw [this] at hset
    exact Bool.false_ne_true hset
  · intro hall j hj
    by_contra hne
    have hset : (RevCPU.stateBefore ClockTick cyc c w (k + 1)).1.Enabled.getD j false = true :=
      Bool.eq_true_of_not_eq_false hne
    obtain ⟨h0, hnf⟩ := (stateBefore_getD ClockTick cyc c w hj (k + 1)).1 hset
    obtain ⟨m, hm, hfin⟩ := hall j hj h0
    rw [hnf m (by omega)] at hfin
    exact Bool.false_ne_true hfin

end Calls

/-! ### Construction -/

theorem foldl_pushProc (n : Nat) (P : List RevProc) (t : List Call) :
    (List.range n).foldl RevCPU.pushProc (P, t) =
      (P ++ (List.range n).map RevProc.mk, t ++ (List.range n).map Call.newRevProc) := by
  induction n with
  | zero => simp
  | succ n ih =>
    rw [List.range_succ, List.foldl_append, ih]
    simp [RevCPU.pushProc]

theorem foldl_set_true (E : List Bool) (k : Nat) (hk : k ≤ E.length) :
    ((List.range k).foldl (fun E i => E.set i true) E).length = E.length ∧
      ∀ j, j < k → ((List.range k).foldl (fun E i => E.set i true) E).getD j false = true := by
  induction k with
  | zero => simp
  | succ k ih =>
    obtain ⟨hlen, hall⟩ := ih (by omega)
    rw [List.range_succ, List.foldl_append]
    simp only [List.foldl_cons, List.foldl_nil]
    refine ⟨by rw [List.length_set, hlen], fun j hj => ?_⟩
    by_cases hjk : j = k
    · subst hjk
      exact getD_set_self _ _ _ (by omega)
    · rw [getD_set_ne _ _ _ (fun e => hjk e.symm)]
      exact hall j (by omega)

theorem foldl_set_true_eq (E : List Bool) :
    (List.range E.length).foldl (fun E i => E.set i true) E = List.replicate E.length true := by
  obtain ⟨hlen, hall⟩ := foldl_set_true E E.length (Nat.le_refl _)
  rw [List.eq_replicate_iff]
  refine ⟨hlen, fun b hb => ?_⟩
  obtain ⟨j, hj, rfl⟩ := List.getElem_of_mem hb
  rw [← List.getD_eq_getElem _ false hj]
  exact hall j (by omega)

theorem createdCores_map_newRevProc (l : List Nat) :
    createdCores (l.map Call.newRevProc) = l := by
  induction l with
  | nil => rfl
  | cons a l ih => simpa [createdCores, Call.newProcIndex] using ih

/-- What a successful construction leaves behind. -/
theorem new_ok {params : Params} {ext : Collaborators} {c : RevCPU}
    (h : (RevCPU.new params ext).outcome = Except.ok c) :
    c.numCores = params.numCores ∧
      c.Procs = (List.range params.numCores).map RevProc.mk ∧
      c.Enabled = List.replicate params.numCores true ∧
      c.EnableNIC = params.enable_nic ∧ c.EnablePAN = params.enable_pan ∧
      createdCores (RevCPU.new params ext).calls = List.range params.numCores := by
  obtain ⟨N, en, ep⟩ := params
  obtain ⟨a, b, d, e, nic, pan, ni, pi, g⟩ := ext
  have hP : ∀ t : List Call, (List.range N).foldl RevCPU.pushProc ([], t) =
      ((List.range N).map RevProc.mk, t ++ (List.range N).map Call.newRevProc) := by
    intro t
    rw [foldl_pushProc]
    rfl
  have hE : (List.range N).foldl (fun E i => E.set i true) ((List.range N).map g) =
      List.replicate N true := by
    have := foldl_set_true_eq ((List.range N).map g)
    simpa using this
  have hC : ∀ t : List Call, createdCores t = [] →
      createdCores (t ++ (List.range N).map Call.newRevProc) = List.range N := by
    intro t ht
    have := createdCores_map_newRevProc (List.range N)
    unfold createdCores at this ht ⊢
    rw [List.filterMap_append, this, ht]
    rfl
  cases a
  · simp [RevCPU.new, Construction.fatal] at h
  cases b
  · simp [RevCPU.new, Construction.fatal] at h
  cases d
  · simp [RevCPU.new, Construction.fatal] at h
  cases e
  · simp [RevCPU.new, Construction.fatal] at h
  cases en <;> cases ep <;> cases nic <;> cases pan <;> cases ni <;> cases pi <;>
    first
    | (simp [RevCPU.new, Construction.fatal] at h; done)
    | (simp only [RevCPU.new, hP, hE, Bool.not_true, Bool.false_eq_true, if_false, if_true,
        Bool.and_true, Bool.and_false, Bool.true_and, Bool.false_and, Option.isNone_none,
        Option.isNone_some, Except.ok.injEq] at h ⊢
       subst h
       refine ⟨rfl, rfl, rfl, rfl, rfl, hC _ ?_⟩
       simp [createdCores, Call.newProcIndex])

theorem new_ok_wellFormed {params : Params} {ext : Collaborators} {c : RevCPU}
    (h : (RevCPU.new params ext).outcome = Except.ok c) : c.WellFormed := by
  obtain ⟨h1, h2, h3, -⟩ := new_ok h
  unfold RevCPU.WellFormed
  rw [h1, h2, h3]
  simp

theorem timesTicked_eq_count (calls : List Call) (i : Nat) :
    timesTicked calls i = (tickedCores calls).count i := by
  induction calls with
  | nil => rfl
  | cons e calls ih =>
    unfold timesTicked tickedCores at ih ⊢
    cases e <;> simp [List.countP_cons, List.filterMap_cons, Call.isTickOf, Call.tickIndex,
      List.count_cons, ih]

theorem count_filter_range (p : Nat → Bool) (n i : Nat) :
    ((List.range n).filter p).count i = if i < n ∧ p i = true then 1 else 0 := by
  rw [List.count_eq_of_nodup ((List.nodup_range n).filter _)]
  simp only [List.mem_filter, List.mem_range]

theorem length_filter_getD (E : List Bool) :
    ((List.range E.length).filter (fun i => E.getD i false)).length = E.count true := by
  induction E using List.reverseRecOn with
  | nil => rfl
  | append_singleton E b ih =>
    rw [List.length_append, List.length_singleton, List.range_succ, List.filter_append,
      List.length_append, List.count_append]
    have h1 : (List.range E.length).filter (fun i => (E ++ [b]).getD i false) =
        (List.range E.length).filter (fun i => E.getD i false) := by
      apply List.filter_congr
      intro x hx
      rw [List.mem_range] at hx
      rw [List.getD_append _ _ _ _ hx]
    have h2 : (E ++ [b]).getD E.length false = b := by
      rw [List.getD_append_right _ _ _ _ (Nat.le_refl _)]
      simp
    rw [h1, ih]
    cases b <;> simp [List.filter_cons, h2]

section MessageFrame

variable {ω : Type} (ClockTick : ω → RevProc → Nat → Bool × ω) (cyc : Nat → Nat)
  (msgs : Nat → List (Endpoint × Event)) (c : RevCPU) (w : ω)

theorem deliver_fst (m : Endpoint × Event) : (c.deliver m).1 = c := by
  unfold RevCPU.deliver
  cases m.1 <;> rfl

theorem deliverAll_eq (l : List (Endpoint × Event)) : c.deliverAll l = c := by
  unfold RevCPU.deliverAll
  induction l with
  | nil => rfl
  | cons m l ih => rw [List.foldl_cons, deliver_fst]; exact ih

theorem stateBeforeWith_eq (k : Nat) :
    RevCPU.stateBeforeWith ClockTick cyc msgs c w k = RevCPU.stateBefore ClockTick cyc c w k := by
  induction k with
  | zero => simp [RevCPU.stateBeforeWith, RevCPU.stateBefore, deliverAll_eq]
  | succ k ih => simp [RevCPU.stateBeforeWith, RevCPU.stateBefore, deliverAll_eq, ih]

end MessageFrame

/-! ## The claims -/

/-- C1: starting from a freshly constructed object with `N >= 1` cores, for every behaviour
of the cores and every initial world, call `k` of `clockTick` returns `true` exactly when
every core has returned `false` (finished) from its `ClockTick` in call `k` or an earlier
call; so it returns `false` while some core has not, `true` on the first call by which all
have, and `true` on every later call.  In the scenario with three cores finishing on cycles
2, 5 and 5, the calls for cycles 1 to 5 return false, false, false, false, true and the
completion array after cycle 5 is all false. -/
theorem clockTick_true_iff_all_finished {ω : Type} (ClockTick : ω → RevProc → Nat → Bool × ω)
    (w : ω) (cyc : Nat → Nat) (N : Nat) (params : Params) (ext : Collaborators) (c : RevCPU)
    (_hN : 1 ≤ N) (hp : params.numCores = N)
    (hc : (RevCPU.new params ext).outcome = Except.ok c) (k : Nat) :
    ((RevCPU.call ClockTick cyc c w k).rtn = true ↔
        ∀ i, i < N →
          ∃ m, m ≤ k ∧ finishedIn (RevCPU.call ClockTick cyc c w m).calls i = true) ∧
      ((RevCPU.call ClockTick cyc c w k).rtn = true →
        ∀ k', k ≤ k' → (RevCPU.call ClockTick cyc c w k').rtn = true) ∧
      ((RevCPU.new (Params.mk 3 false false) plainCollaborators).outcome =
          Except.ok scenarioCPU ∧
        (List.range 5).map
            (fun j => (RevCPU.call scenarioClockTick scenarioCycle scenarioCPU () j).rtn) =
          [false, false, false, false, true] ∧
        (RevCPU.call scenarioClockTick scenarioCycle scenarioCPU () 4).cpu.Enabled =
          [false, false, false]) := by
  obtain ⟨-, hProcs, hEn, -⟩ := new_ok hc
  have hlen : c.Procs.length = N := by rw [hProcs, ← hp]; simp
  have hget : ∀ i, i < N → c.Enabled.getD i false = true := by
    intro i hi
    rw [hEn, List.getD_eq_getElem _ _ (by simpa [hp] using hi)]
    simp
  have hiff : ∀ k, (RevCPU.call ClockTick cyc c w k).rtn = true ↔
      ∀ i, i < N →
        ∃ m, m ≤ k ∧ finishedIn (RevCPU.call ClockTick cyc c w m).calls i = true := by
    intro k
    rw [call_rtn, hlen]
    exact ⟨fun h i hi => h i hi (hget i hi), fun h i hi _ => h i hi⟩
  refine ⟨hiff k, ?_, rfl, by decide, by decide⟩
  intro hk k' hkk'
  rw [hiff] at hk ⊢
  intro i hi
  obtain ⟨m, hm, hf⟩ := hk i hi
  exact ⟨m, by omega, hf⟩

theorem clockTick_true_iff_all_finished_witness :
    (1 ≤ 3 ∧ (Params.mk 3 false false).numCores = 3 ∧
      (RevCPU.new (Params.mk 3 false false) plainCollaborators).outcome =
        Except.ok scenarioCPU) ∧
      ((RevCPU.call scenarioClockTick scenarioCycle scenarioCPU () 4).rtn = true ↔
        ∀ i, i < 3 → ∃ m, m ≤ 4 ∧
          finishedIn (RevCPU.call scenarioClockTick scenarioCycle scenarioCPU () m).calls i
            = true) :=
  ⟨⟨by decide, rfl, rfl⟩,
    (clockTick_true_iff_all_finished scenarioClockTick () scenarioCycle 3
      (Params.mk 3 false false) plainCollaborators scenarioCPU (by decide) rfl rfl 4).1⟩

/-- C2: for every well-formed object (any number of cores, a completion array of that
length), world and cycle number, `clockTick` returns `true` iff every entry of the
completion array is `false` after the call; and for an object constructed with zero cores
the array is empty, the call returns `true`, and the only call made is the notification of
the host (no core is advanced). -/
theorem clockTick_rtn_iff_all_false {ω : Type} (ClockTick : ω → RevProc → Nat → Bool × ω)
    (c : RevCPU) (w : ω) (currentCycle : Nat) (hwf : c.WellFormed) :
    ((c.clockTick ClockTick w currentCycle).rtn = true ↔
        ∀ b ∈ (c.clockTick ClockTick w currentCycle).cpu.Enabled, b = false) ∧
      ∀ (params : Params) (ext : Collaborators) (c0 : RevCPU), params.numCores = 0 →
        (RevCPU.new params ext).outcome = Except.ok c0 →
        c0.Enabled = [] ∧ (c0.clockTick ClockTick w currentCycle).rtn = true ∧
          (c0.clockTick ClockTick w currentCycle).calls = [Call.primaryComponentOKToEndSim] := by
  constructor
  · rw [clockTick_rtn, all_false_iff_getD, clockTick_length, hwf.1, hwf.2]
  · intro params ext c0 h0 hc0
    obtain ⟨-, hProcs, hEn, -⟩ := new_ok hc0
    rw [h0] at hProcs hEn
    have hP : c0.Procs = [] := hProcs
    have hE : c0.Enabled = [] := hEn
    refine ⟨hE, ?_, ?_⟩ <;> simp [RevCPU.clockTick, hP]

theorem clockTick_rtn_iff_all_false_witness :
    scenarioCPU.WellFormed ∧
      ((scenarioCPU.clockTick scenarioClockTick () 1).rtn = true ↔
        ∀ b ∈ (scenarioCPU.clockTick scenarioClockTick () 1).cpu.Enabled, b = false) ∧
      (RevCPU.new (Params.mk 0 false false) plainCollaborators).outcome = Except.ok emptyCPU ∧
      emptyCPU.Enabled = [] ∧ (emptyCPU.clockTick scenarioClockTick () 1).rtn = true ∧
      (emptyCPU.clockTick scenarioClockTick () 1).calls = [Call.primaryComponentOKToEndSim] :=
  ⟨by decide,
    (clockTick_rtn_iff_all_false scenarioClockTick scenarioCPU () 1 (by decide)).1,
    rfl,
    (clockTick_rtn_iff_all_false scenarioClockTick scenarioCPU () 1 (by decide)).2
      (Params.mk 0 false false) plainCollaborators emptyCPU rfl rfl⟩

/-- C3: in every `clockTick` call on a well-formed object, a core whose completion-array
entry is `true` when the call starts has its `ClockTick` invoked exactly once, and a core
whose entry is `false` (or an index that is no core) not at all; and in every sequence of
calls, a core is not invoked in any call after the one in which it returned `false`. -/
theorem clockTick_advances_enabled_once {ω : Type}
    (ClockTick : ω → RevProc → Nat → Bool × ω) (c : RevCPU) (w : ω) (currentCycle : Nat)
    (hwf : c.WellFormed) :
    (∀ i, c.Enabled[i]? = some true →
        timesTicked (c.clockTick ClockTick w currentCycle).calls i = 1) ∧
      (∀ i, c.Enabled[i]? ≠ some true →
        timesTicked (c.clockTick ClockTick w currentCycle).calls i = 0) ∧
      ∀ (cyc : Nat → Nat) (k m i : Nat),
        finishedIn (RevCPU.call ClockTick cyc c w k).calls i = true → k < m →
          timesTicked (RevCPU.call ClockTick cyc c w m).calls i = 0 := by
  have hcount : ∀ (c : RevCPU) (w : ω) (cycle i : Nat),
      timesTicked (c.clockTick ClockTick w cycle).calls i =
        if i < c.Procs.length ∧ c.Enabled.getD i false = true then 1 else 0 := by
    intro c w cycle i
    rw [timesTicked_eq_count, clockTick_tickedCores, count_filter_range]
  refine ⟨fun i hi => ?_, fun i hi => ?_, fun cyc k m i hfin hkm => ?_⟩
  · have hlt : i < c.Enabled.length := by
      by_contra hge
      rw [List.getElem?_eq_none (by omega)] at hi
      cases hi
    rw [hcount, if_pos ⟨by rw [hwf.1, ← hwf.2]; exact hlt,
      (getElem?_eq_some_iff_getD _ hlt _).1 hi⟩]
  · rw [hcount, if_neg]
    rintro ⟨hlt, hE⟩
    have hlt' : i < c.Enabled.length := by rw [hwf.2, ← hwf.1]; exact hlt
    exact hi ((getElem?_eq_some_iff_getD _ hlt' _).2 hE)
  · have hi : i < c.Procs.length :=
      call_ticked_lt ClockTick cyc c w (mem_tickedCores_of_finishedIn hfin)
    show timesTicked (RevCPU.clockTick ClockTick (RevCPU.stateBefore ClockTick cyc c w m).1
      (RevCPU.stateBefore ClockTick cyc c w m).2 (cyc m)).calls i = 0
    rw [hcount, if_neg]
    rintro ⟨-, hE⟩
    have := ((stateBefore_getD ClockTick cyc c w hi m).1 hE).2 k hkm
    rw [this] at hfin
    exact Bool.false_ne_true hfin

theorem clockTick_advances_enabled_once_witness :
    scenarioCPU.WellFormed ∧
      timesTicked (scenarioCPU.clockTick scenarioClockTick () 1).calls 0 = 1 ∧
      (finishedIn (RevCPU.call scenarioClockTick scenarioCycle scenarioCPU () 1).calls 0 = true
        ∧ 1 < 2 ∧
        timesTicked (RevCPU.call scenarioClockTick scenarioCycle scenarioCPU () 2).calls 0 = 0) :=
  ⟨by decide,
    (clockTick_advances_enabled_once scenarioClockTick scenarioCPU () 1 (by decide)).1 0 rfl,
    by decide, by decide,
    (clockTick_advances_enabled_once scenarioClockTick scenarioCPU () 1 (by decide)).2.2
      scenarioCycle 1 2 0 (by decide) (by decide)⟩

/-- C4: in every sequence of `clockTick` calls on a freshly constructed object, after each
call the completion array still has one entry per core, and entry `i` is `true` iff core
`i` has not returned `false` from its `ClockTick` in that call or any earlier one (and
`false` iff it has); an entry that is `false` after a call is `false` after every later
call, and an entry differs before and after a call only if the core returned `false` in
that call. -/
theorem completion_table_invariant {ω : Type} (ClockTick : ω → RevProc → Nat → Bool × ω)
    (w : ω) (cyc : Nat → Nat) (params : Params) (ext : Collaborators) (c : RevCPU)
    (hc : (RevCPU.new params ext).outcome = Except.ok c) (k i : Nat)
    (hi : i < params.numCores) :
    (RevCPU.call ClockTick cyc c w k).cpu.Enabled.length = params.numCores ∧
      ((RevCPU.call ClockTick cyc c w k).cpu.Enabled[i]? = some true ↔
        ∀ m, m ≤ k → finishedIn (RevCPU.call ClockTick cyc c w m).calls i = false) ∧
      ((RevCPU.call ClockTick cyc c w k).cpu.Enabled[i]? = some false ↔
        ∃ m, m ≤ k ∧ finishedIn (RevCPU.call ClockTick cyc c w m).calls i = true) ∧
      (∀ k', k ≤ k' → (RevCPU.call ClockTick cyc c w k).cpu.Enabled[i]? = some false →
        (RevCPU.call ClockTick cyc c w k').cpu.Enabled[i]? = some false) ∧
      ((RevCPU.call ClockTick cyc c w k).cpu.Enabled[i]? ≠
          (RevCPU.stateBefore ClockTick cyc c w k).1.Enabled[i]? →
        finishedIn (RevCPU.call ClockTick cyc c w k).calls i = true) := by
  obtain ⟨-, hProcs, hEn, -⟩ := new_ok hc
  have hiP : i < c.Procs.length := by rw [hProcs]; simpa using hi
  have hlen0 : c.Enabled.length = params.numCores := by rw [hEn]; simp
  have hget0 : c.Enabled.getD i false = true := by
    rw [hEn, List.getD_eq_getElem _ _ (by simpa using hi)]
    simp
  have hlen : ∀ k, (RevCPU.stateBefore ClockTick cyc c w k).1.Enabled.length =
      params.numCores := fun k => by rw [stateBefore_length, hlen0]
  have hiE : ∀ k, i < (RevCPU.stateBefore ClockTick cyc c w k).1.Enabled.length :=
    fun k => by rw [hlen]; exact hi
  have htrue : ∀ k, (RevCPU.stateBefore ClockTick cyc c w k).1.Enabled[i]? = some true ↔
      ∀ m, m < k → finishedIn (RevCPU.call ClockTick cyc c w m).calls i = false := by
    intro k
    rw [getElem?_eq_some_iff_getD _ (hiE k), stateBefore_getD ClockTick cyc c w hiP]
    exact ⟨fun h => h.2, fun h => ⟨hget0, h⟩⟩
  have hfalse : ∀ k, (RevCPU.stateBefore ClockTick cyc c w k).1.Enabled[i]? = some false ↔
      ∃ m, m < k ∧ finishedIn (RevCPU.call ClockTick cyc c w m).calls i = true := by
    intro k
    rw [getElem?_eq_some_iff_getD _ (hiE k)]
    have := htrue k
    rw [getElem?_eq_some_iff_getD _ (hiE k)] at this
    constructor
    · intro hf
      by_contra hne
      have ht := this.2 (fun m hm => by
        by_contra hfin
        exact hne ⟨m, hm, Bool.eq_true_of_not_eq_false hfin⟩)
      rw [hf] at ht
      exact Bool.false_ne_true ht
    · rintro ⟨m, hm, hfin⟩
      by_contra hne
      have := this.1 (Bool.eq_true_of_not_eq_false hne) m hm
      rw [this] at hfin
      exact Bool.false_ne_true hfin
  have hsucc : ∀ k, (RevCPU.call ClockTick cyc c w k).cpu =
      (RevCPU.stateBefore ClockTick cyc c w (k + 1)).1 := fun _ => rfl
  refine ⟨by rw [hsucc, hlen], ?_, ?_, ?_, ?_⟩
  · rw [hsucc, htrue]
    exact ⟨fun h m hm => h m (by omega), fun h m hm => h m (by omega)⟩
  · rw [hsucc, hfalse]
    exact ⟨fun ⟨m, hm, h⟩ => ⟨m, by omega, h⟩, fun ⟨m, hm, h⟩ => ⟨m, by omega, h⟩⟩
  · intro k' hkk'
    rw [hsucc, hsucc, hfalse, hfalse]
    rintro ⟨m, hm, h⟩
    exact ⟨m, by omega, h⟩
  · intro hne
    by_contra hfin
    apply hne
    have hstep := clockTick_getD ClockTick (RevCPU.stateBefore ClockTick cyc c w k).1
      (RevCPU.stateBefore ClockTick cyc c w k).2 (cyc k)
      (show i < (RevCPU.stateBefore ClockTick cyc c w k).1.Procs.length by
        rw [stateBefore_Procs]; exact hiP)
    have hfin' : finishedIn (RevCPU.clockTick ClockTick
        (RevCPU.stateBefore ClockTick cyc c w k).1
        (RevCPU.stateBefore ClockTick cyc c w k).2 (cyc k)).calls i = false :=
      Bool.eq_false_of_not_eq_true hfin
    rw [hfin', Bool.not_false, Bool.and_true] at hstep
    have h1 := hiE (k + 1)
    have h2 := hiE k
    rw [hsucc, List.getElem?_eq_getElem h1, List.getElem?_eq_getElem h2,
      ← List.getD_eq_getElem _ false h1, ← List.getD_eq_getElem _ false h2]
    exact congrArg some hstep

theorem completion_table_invariant_witness :
    ((RevCPU.new (Params.mk 3 false false) plainCollaborators).outcome =
        Except.ok scenarioCPU ∧ 0 < (Params.mk 3 false false).numCores) ∧
      ((RevCPU.call scenarioClockTick scenarioCycle scenarioCPU () 1).cpu.Enabled[0]? =
          some false ↔
        ∃ m, m ≤ 1 ∧
          finishedIn (RevCPU.call scenarioClockTick scenarioCycle scenarioCPU () m).calls 0
            = true) :=
  ⟨⟨rfl, by decide⟩,
    (completion_table_invariant scenarioClockTick () scenarioCycle (Params.mk 3 false false)
      plainCollaborators scenarioCPU rfl 1 0 (by decide)).2.2.1⟩

/-- C5: for every configured core count `N`, a successful construction leaves exactly `N`
core units, constructed in ascending index order, the unit at position `i` being the one
constructed with core index `i`, and a completion array of exactly `N` entries, all
`true`. -/
theorem construction_builds_cores_and_table (params : Params) (ext : Collaborators)
    (c : RevCPU) (hc : (RevCPU.new params ext).outcome = Except.ok c) :
    c.numCores = params.numCores ∧
      c.Procs.length = params.numCores ∧
      (∀ i, i < params.numCores → c.Procs[i]? = some (RevProc.mk i)) ∧
      createdCores (RevCPU.new params ext).calls = List.range params.numCores ∧
      c.Enabled.length = params.numCores ∧
      (∀ b ∈ c.Enabled, b = true) ∧
      c.Enabled = List.replicate params.numCores true := by
  obtain ⟨hn, hProcs, hEn, -, -, hcalls⟩ := new_ok hc
  refine ⟨hn, by rw [hProcs]; simp, fun i hi => ?_, hcalls, by rw [hEn]; simp, ?_, hEn⟩
  · rw [hProcs, List.getElem?_map, List.getElem?_range hi]
    rfl
  · intro b hb
    rw [hEn] at hb
    exact (List.mem_replicate.1 hb).2

theorem construction_builds_cores_and_table_witness :
    (RevCPU.new (Params.mk 3 false false) plainCollaborators).outcome = Except.ok scenarioCPU ∧
      scenarioCPU.Procs.length = 3 ∧
      createdCores (RevCPU.new (Params.mk 3 false false) plainCollaborators).calls =
        List.range 3 ∧
      scenarioCPU.Enabled = List.replicate 3 true :=
  ⟨rfl,
    (construction_builds_cores_and_table (Params.mk 3 false false) plainCollaborators
      scenarioCPU rfl).2.1,
    (construction_builds_cores_and_table (Params.mk 3 false false) plainCollaborators
      scenarioCPU rfl).2.2.2.1,
    (construction_builds_cores_and_table (Params.mk 3 false false) plainCollaborators
      scenarioCPU rfl).2.2.2.2.2.2⟩

/-- C6, the behaviour of the code on the input that refutes it: with the NIC enabled and
resolved and the PAN NIC enabled and not resolved (whatever the core count and the
indeterminate storage), the constructor does not call `output.fatal`; the null check after
loading the PAN NIC tests `Nic`, passes, and `PNic->setMsgHandler` goes through the null
`PNic`.  With the NIC disabled the same check reads the uninitialised `Nic`: if that is
null, construction is fatal although the PAN NIC was resolved.  For the NIC itself the
check is the right one: enabled and not resolved is fatal, before any core is created. -/
theorem new_pan_unresolved_dereferences_null (N : Nat) (n : nicAPI) (p : panNicAPI)
    (pan : Option panNicAPI) (ni : Option nicAPI) (pi : Option panNicAPI) (g : Nat → Bool)
    (ep : Bool) :
    ((RevCPU.new (Params.mk N true true)
          (Collaborators.mk true true true true (some n) none ni pi g)).outcome =
        Except.error Abort.nullDereference ∧
      calledFatal (RevCPU.new (Params.mk N true true)
          (Collaborators.mk true true true true (some n) none ni pi g)).calls = false ∧
      createdCores (RevCPU.new (Params.mk N true true)
          (Collaborators.mk true true true true (some n) none ni pi g)).calls = []) ∧
      (RevCPU.new (Params.mk N false true)
          (Collaborators.mk true true true true none (some p) none pi g)).outcome =
        Except.error (Abort.fatal "Error: no PAN NIC object loaded into RevCPU\n") ∧
      ((RevCPU.new (Params.mk N true ep)
          (Collaborators.mk true true true true none pan ni pi g)).outcome =
        Except.error (Abort.fatal "Error: no NIC object loaded into RevCPU\n") ∧
      createdCores (RevCPU.new (Params.mk N true ep)
          (Collaborators.mk true true true true none pan ni pi g)).calls = []) :=
  ⟨⟨rfl, rfl, rfl⟩, rfl, rfl, rfl⟩

/-- C7, the behaviour of the code on the input that refutes it: on the object constructed
with both network interfaces enabled and resolved, `setup` calls only the setup of the NIC
and `init` only the init of the NIC; on any object with the PAN NIC enabled and the NIC
disabled they call nothing; and on every object they call nothing, or the NIC alone, or go
through a null `Nic`.  Neither ever forwards to the PAN NIC. -/
theorem setup_init_do_not_forward_to_pan (c : RevCPU) (N : Nat) (Procs : List RevProc)
    (Enabled : List Bool) (nic : Option nicAPI) (pnic : panNicAPI) (phase : Nat) :
    (RevCPU.new (Params.mk 1 true true) bothCollaborators).outcome = Except.ok bothCPU ∧
      bothCPU.setup = Except.ok [Call.NicSetup] ∧
      bothCPU.init phase = Except.ok [Call.NicInit phase] ∧
      (RevCPU.mk N Procs Enabled false true nic (some pnic)).setup = Except.ok [] ∧
      (RevCPU.mk N Procs Enabled false true nic (some pnic)).init phase = Except.ok [] ∧
      (c.setup = Except.ok [] ∨ c.setup = Except.ok [Call.NicSetup] ∨
        c.setup = Except.error Abort.nullDereference) ∧
      (c.init phase = Except.ok [] ∨ c.init phase = Except.ok [Call.NicInit phase] ∨
        c.init phase = Except.error Abort.nullDereference) := by
  refine ⟨rfl, rfl, rfl, rfl, rfl, ?_, ?_⟩
  · unfold RevCPU.setup
    cases c.EnableNIC <;> cases c.Nic <;> simp
  · unfold RevCPU.init
    cases c.EnableNIC <;> cases c.Nic <;> simp

/-- C8: in every `clockTick` call on a well-formed object with at least two active cores,
the core indices whose `ClockTick` is invoked are, in call order, exactly the indices with
a `true` completion-array entry in ascending order; so the sequence is strictly ascending
and has at least two members; and every invocation is given the cycle number that was
passed to `clockTick`. -/
theorem clockTick_visits_cores_ascending {ω : Type}
    (ClockTick : ω → RevProc → Nat → Bool × ω) (c : RevCPU) (w : ω) (currentCycle : Nat)
    (hwf : c.WellFormed) (h2 : 2 ≤ c.Enabled.count true) :
    tickedCores (c.clockTick ClockTick w currentCycle).calls =
        (List.range c.numCores).filter (fun i => c.Enabled.getD i false) ∧
      (tickedCores (c.clockTick ClockTick w currentCycle).calls).Pairwise (fun i j => i < j) ∧
      2 ≤ (tickedCores (c.clockTick ClockTick w currentCycle).calls).length ∧
      ∀ i cy r, Call.ClockTick i cy r ∈ (c.clockTick ClockTick w currentCycle).calls →
        cy = currentCycle := by
  have ht := clockTick_tickedCores ClockTick c w currentCycle
  refine ⟨by rw [ht, hwf.1], ?_, ?_, ?_⟩
  · rw [ht]
    exact (List.pairwise_lt_range _).filter _
  · rw [ht, hwf.1, ← hwf.2, length_filter_getD]
    exact h2
  · intro i cy r hmem
    rcases clockTick_shape ClockTick c w currentCycle _ hmem with ⟨i', r', he⟩ | he
    · injection he with _ hcy _
    · cases he

theorem clockTick_visits_cores_ascending_witness :
    (scenarioCPU.WellFormed ∧ 2 ≤ scenarioCPU.Enabled.count true) ∧
      tickedCores (scenarioCPU.clockTick scenarioClockTick () 7).calls =
        (List.range scenarioCPU.numCores).filter (fun i => scenarioCPU.Enabled.getD i false) ∧
      (tickedCores (scenarioCPU.clockTick scenarioClockTick () 7).calls).Pairwise
        (fun i j => i < j) :=
  ⟨⟨by decide, by decide⟩,
    (clockTick_visits_cores_ascending scenarioClockTick scenarioCPU () 7
      (by decide) (by decide)).1,
    (clockTick_visits_cores_ascending scenarioClockTick scenarioCPU () 7
      (by decide) (by decide)).2.1⟩

/-- C9: in every `clockTick` call on a well-formed object, `primaryComponentOKToEndSim` is
called iff the call returns `true`; so in every sequence of calls, when the host is told
that the simulation may end, every completion-array entry is `false`, and no core is
advanced in any later call. -/
theorem clockTick_notifies_iff_rtn {ω : Type} (ClockTick : ω → RevProc → Nat → Bool × ω)
    (c : RevCPU) (w : ω) (hwf : c.WellFormed) :
    (∀ currentCycle,
        Call.primaryComponentOKToEndSim ∈ (c.clockTick ClockTick w currentCycle).calls ↔
          (c.clockTick ClockTick w currentCycle).rtn = true) ∧
      ∀ (cyc : Nat → Nat) (k : Nat),
        Call.primaryComponentOKToEndSim ∈ (RevCPU.call ClockTick cyc c w k).calls →
          (∀ b ∈ (RevCPU.call ClockTick cyc c w k).cpu.Enabled, b = false) ∧
            ∀ m, k < m → tickedCores (RevCPU.call ClockTick cyc c w m).calls = [] := by
  refine ⟨fun cycle => clockTick_okToEnd ClockTick c w cycle, fun cyc k hok => ?_⟩
  have hrtn : (RevCPU.call ClockTick cyc c w k).rtn = true :=
    (clockTick_okToEnd ClockTick _ _ _).1 hok
  have hwfk := stateBefore_wellFormed ClockTick cyc c w hwf k
  constructor
  · have h := (clockTick_rtn ClockTick _ _ _).1 hrtn
    rw [all_false_iff_getD]
    intro j hj
    apply h j
    rw [hwfk.1, ← hwfk.2, ← clockTick_length ClockTick]
    exact hj
  · intro m hkm
    rw [List.eq_nil_iff_forall_not_mem]
    intro i hi
    have hiP := call_ticked_lt ClockTick cyc c w hi
    have hE := call_ticked_enabled ClockTick cyc c w hi
    have hnf := ((stateBefore_getD ClockTick cyc c w hiP m).1 hE)
    obtain ⟨j, hj, hfin⟩ := (call_rtn ClockTick cyc c w k).1 hrtn i hiP hnf.1
    rw [hnf.2 j (by omega)] at hfin
    exact Bool.false_ne_true hfin

theorem clockTick_notifies_iff_rtn_witness :
    scenarioCPU.WellFormed ∧
      (Call.primaryComponentOKToEndSim ∈
          (RevCPU.call scenarioClockTick scenarioCycle scenarioCPU () 4).calls ∧
        tickedCores (RevCPU.call scenarioClockTick scenarioCycle scenarioCPU () 5).calls = [])
      :=
  ⟨by decide, by decide,
    ((clockTick_notifies_iff_rtn scenarioClockTick scenarioCPU () (by decide)).2
      scenarioCycle 4 (by decide)).2 5 (by decide)⟩

/-- C10: for every object, endpoint and message, payload empty or not, `handleMessage` and
`handlePANMessage` return, leave every member of the object (the completion array and the
list of cores among them) as it was, and call nothing but the deletion of the event; so
for every sequence of `clockTick` calls and every choice of messages delivered before the
first call and after each call, every call returns the same value, leaves the same object
and world and makes the same calls as without the messages. -/
theorem message_handlers_frame :
    (∀ (c : RevCPU) (ev : Event),
        c.handleMessage ev = (c, [Call.deleteNicEvent ev]) ∧
          c.handlePANMessage ev = (c, [Call.deletePanNicEvent ev]) ∧
          tickedCores (c.handleMessage ev).2 = [] ∧
          tickedCores (c.handlePANMessage ev).2 = []) ∧
      (∀ (c : RevCPU),
        c.handleMessage (Event.mk []) = (c, [Call.deleteNicEvent (Event.mk [])]) ∧
          c.handlePANMessage (Event.mk []) = (c, [Call.deletePanNicEvent (Event.mk [])])) ∧
      ∀ (ω : Type) (ClockTick : ω → RevProc → Nat → Bool × ω) (cyc : Nat → Nat)
        (msgs : Nat → List (Endpoint × Event)) (c : RevCPU) (w : ω) (k : Nat),
        RevCPU.callWith ClockTick cyc msgs c w k = RevCPU.call ClockTick cyc c w k ∧
          (RevCPU.stateBeforeWith ClockTick cyc msgs c w k).1.Enabled =
            (RevCPU.stateBefore ClockTick cyc c w k).1.Enabled := by
  refine ⟨fun c ev => ⟨rfl, rfl, rfl, rfl⟩, fun c => ⟨rfl, rfl⟩, ?_⟩
  intro ω ClockTick cyc msgs c w k
  unfold RevCPU.callWith RevCPU.call
  rw [stateBeforeWith_eq]
  exact ⟨rfl, rfl⟩

end SST
